import Mathlib

/-!
Verification of data-layer behavior of the libyang repository.

The repository ships the unit tests of its data parser, validator, type
engine and printers (under `tests/utests/`), the work-in-progress tree-art
printer (`src/printer_tree.c`), and public headers; the bodies of the data
parser, validator and type engine themselves are not part of this snapshot.
Where a definition embeds one of those missing bodies it is modelled from
the specification, with the concrete outcomes pinned down by the
unit tests of the repository; every such definition says so in its doc
comment.  `src/printer_tree.c` is present and is embedded directly.
-/

set_option maxHeartbeats 1000000
set_option linter.unusedVariables false

namespace LibYang

/-- Subset of the `LY_ERR` return codes that the claims mention.
`LY_SUCCESS` is the C enumeration value `0`. -/
inductive LY_ERR where
| LY_SUCCESS
| LY_EVALID
deriving DecidableEq, Repr

/-- Numeric value of a return code: `LY_SUCCESS` is `0` in the C enum
(`LY_EVALID` is a nonzero code; its exact value is irrelevant here). -/
def LY_ERR.code : LY_ERR → Nat
| .LY_SUCCESS => 0
| .LY_EVALID => 6

/-! Tree-art printer (embedded from src/src/printer_tree.c) -/

/-- Output handle of the printers: models `struct ly_out` as the bytes
written to it so far. -/
structure LyOut where
  buf : String
deriving DecidableEq, Repr

/-- Stand-in for a `struct lys_module *` argument.  The tree-art printer
entry points never inspect it (the parameter is marked `UNUSED`), so the
payload is arbitrary. -/
structure LysModuleArg where
  id : Nat
deriving DecidableEq, Repr

/-- Stand-in for a `struct lysp_submodule *` argument (never inspected). -/
structure LyspSubmoduleArg where
  id : Nat
deriving DecidableEq, Repr

/-- Stand-in for a `struct lysc_node *` argument (never inspected). -/
structure LyscNodeArg where
  id : Nat
deriving DecidableEq, Repr

/-- Embeds `tree_print_parsed_and_compiled_module` from
src/src/printer_tree.c lines 1701-1704: the body is the stub
`{ return 0; }`; every parameter is marked `UNUSED` and nothing is written
to the output handle. -/
def tree_print_parsed_and_compiled_module (out : LyOut) (module : LysModuleArg)
    (options : Nat) (line_length : Nat) : LY_ERR × LyOut :=
  (.LY_SUCCESS, out)

/-- Embeds `tree_print_submodule` from src/src/printer_tree.c lines
1707-1710: the body is the stub `{ return 0; }`. -/
def tree_print_submodule (out : LyOut) (module : LysModuleArg)
    (submodp : LyspSubmoduleArg) (options : Nat) (line_length : Nat) :
    LY_ERR × LyOut :=
  (.LY_SUCCESS, out)

/-- Embeds `tree_print_compiled_node` from src/src/printer_tree.c lines
1713-1716: the body is the stub `{ return 0; }`. -/
def tree_print_compiled_node (out : LyOut) (node : LyscNodeArg)
    (options : Nat) (line_length : Nat) : LY_ERR × LyOut :=
  (.LY_SUCCESS, out)

/-! Shared lexical helpers -/

/-- Whitespace characters of YANG/XML value separation: space, tab, line
feed and carriage return. -/
def isYangWs (c : Char) : Bool :=
  c = ' ' || c = '\t' || c = '\n' || c = '\r'

/-- Splits a character list at whitespace, dropping empty pieces; the
accumulator holds the (reversed) current token. -/
def splitWsGo (cur : List Char) : List Char → List (List Char)
| [] => if cur.isEmpty then [] else [cur.reverse]
| c :: cs =>
  if isYangWs c then
    if cur.isEmpty then splitWsGo [] cs else cur.reverse :: splitWsGo [] cs
  else splitWsGo (c :: cur) cs

/-- Whitespace-separated tokens of a lexical value. -/
def splitWs (s : String) : List String :=
  (splitWsGo [] s.data).map (fun l => String.mk l)

/-- Joins strings with single spaces (canonical separator of bits values). -/
def joinSpace : List String → String
| [] => ""
| [x] => x
| x :: y :: xs => x ++ " " ++ joinSpace (y :: xs)

/-! Type engine: bits -/

/-- Store errors of the bits type. -/
inductive BitsErr where
| invalidBit (name : String)
| duplicateBit (name : String)
deriving DecidableEq, Repr

/-- Modelled from the spec: the store operation of the type engine for `bits`
(§4.E: canonical form is "space-separated bit names, in type-declaration
order, no duplicates"; store failures include unknown bit and duplicate
bit).  Tokens of the lexical value are processed left to right: a name not
declared by the type is an invalid-bit error, a name already seen is a
duplicate-bit error, and on success the stored value lists the present bits
in declaration order.  The concrete outcomes match test_bits in
src/tests/utests/data/test_types.c. -/
def storeBitsGo (decl : List String) (seen : List String) :
    List String → Except BitsErr (List String)
| [] => .ok (decl.filter (fun b => seen.contains b))
| t :: rest =>
  if decl.contains t then
    if seen.contains t then .error (.duplicateBit t)
    else storeBitsGo decl (t :: seen) rest
  else .error (.invalidBit t)

/-- Store a lexical bits value against the declared bit list. -/
def storeBits (decl : List String) (lexical : String) :
    Except BitsErr (List String) :=
  storeBitsGo decl [] (splitWs lexical)

/-- Canonical printed form of a stored bits value. -/
def bitsCanonical (stored : List String) : String :=
  joinSpace stored

/-- The bit declaration order of leaf `bits` in module `types` of the unit
tests: `type bits {bit zero; bit one {if-feature f;} bit two;}` (with
feature `f` enabled). -/
def testBitsDecl : List String := ["zero", "one", "two"]

/-! Type engine: integers, strings, identityref, instance-identifier -/

/-- Store errors of the type engine (§4.E: "Store failures produce a typed
error distinguishing: syntactic malformation, out-of-range/out-of-length,
pattern mismatch, unknown enum/bit/identity, missing referenced instance,
or union-no-match (which summarizes inner errors)"). -/
inductive TErr where
| invalidSyntax (v : String)
| outOfRange (v : String)
| outOfLength (v : String)
| unknownIdentity (v : String)
| noTargetInstance (v : String)
| unionNoMatch (inner : List TErr)
deriving Repr

/-- Stored values produced by the member types of the union tested by
test_union (src/tests/utests/data/test_types.c): a leafref to `/int8`
stores as the native integer of the target, an identityref as the resolved
identity, an instance-identifier as a compiled path, a string as the
string itself. -/
inductive StoredVal where
| vInt8 (n : Int)
| vString (s : String)
| vIdent (module : String) (name : String)
| vInstId (path : String)
deriving DecidableEq, Repr

/-- Parses an optional-sign decimal integer; the whole token must be
consumed and at least one digit must be present.  Models the lexical form
of §4.E for the integer bases. -/
def parseDecInt (s : String) : Option Int :=
  let go : List Char → Option Nat := fun ds =>
    if ds.isEmpty then none
    else ds.foldlM (fun acc c =>
      if c.isDigit then some (acc * 10 + (c.toNat - 48)) else none) 0
  match s.data with
  | '-' :: rest => (go rest).map (fun n => -(n : Int))
  | '+' :: rest => (go rest).map (fun n => (n : Int))
  | ds => (go ds).map (fun n => (n : Int))

/-- Modelled from the spec: store of an `int8` with the range restriction
`10..20` of leaf `int8` in module `types` (leaf int8 with type int8 and
range 10..20): lexical syntax check, then range check. -/
def storeInt8Range (v : String) : Except TErr Int :=
  match parseDecInt v with
  | none => .error (.invalidSyntax v)
  | some n => if 10 ≤ n ∧ n ≤ 20 then .ok n else .error (.outOfRange v)

/-- Modelled from the spec: store of a `uint8` (base domain `0..255`),
the target type of the leaf-list referred to by the leafref of §8
scenario d. -/
def storeUint8 (v : String) : Except TErr Nat :=
  match parseDecInt v with
  | none => .error (.invalidSyntax v)
  | some n =>
    if 0 ≤ n ∧ n ≤ 255 then .ok n.toNat else .error (.outOfRange v)

/-- The identities derived (transitively) from `defs:interface-type` in the
unit-test modules `defs` and `types`: `ethernet` and `fast-ethernet` are
declared in module defs, `gigabit-ethernet` in module types (with base
`defs:ethernet`).  An identityref with base `interface-type` admits exactly
these. -/
def derivedFromInterfaceType : List (String × String) :=
  [("defs", "ethernet"), ("defs", "fast-ethernet"),
   ("types", "gigabit-ethernet")]

/-- Maps an XML namespace URI to the module it identifies. -/
def moduleOfNamespace (ns : String) : Option String :=
  if ns = "urn:tests:defs" then some ("defs")
  else if ns = "urn:tests:types" then some ("types")
  else none

/-- Splits a lexical value `pfx:name` at its first colon. -/
def splitColon (s : String) : Option (String × String) :=
  let rec go (acc : List Char) : List Char → Option (String × String)
  | [] => none
  | c :: cs =>
    if c = ':' then some (String.mk acc.reverse, String.mk cs)
    else go (c :: acc) cs
  go [] s.data

/-- Modelled from the spec: store of an identityref with base
`defs:interface-type` from an XML-encoded value (§4.E: "for XML
`prefix:name` with the prefix resolved" to a module; unknown identities are
store errors).  `nsOfPfx` is the scoped prefix-to-URI map of the XML
element. -/
def storeIdentityref (nsOfPfx : List (String × String)) (v : String) :
    Except TErr StoredVal :=
  match splitColon v with
  | none => .error (.invalidSyntax v)
  | some (pfx, name) =>
    match (nsOfPfx.lookup pfx).bind moduleOfNamespace with
    | none => .error (.unknownIdentity v)
    | some md =>
      if derivedFromInterfaceType.contains (md, name) then
        .ok (.vIdent md name)
      else .error (.unknownIdentity v)

/-- Modelled from the spec: store of an instance-identifier with
`require-instance true` (§4.E: "an XPath-like path with key predicates and
leaf-list value predicates", stored as a compiled path plus a resolved
node).  The value must be an absolute path (leading `/`) whose single step
resolves, via the prefix map of the element, to an instance present in
`instances` (pairs of module-qualified leaf-list name and value predicate
text). -/
def storeInstId (nsOfPfx : List (String × String))
    (instances : List (String × String)) (v : String) :
    Except TErr StoredVal :=
  match v.data with
  | '/' :: rest =>
    match splitColon (String.mk rest) with
    | none => .error (.invalidSyntax v)
    | some (pfx, tail) =>
      match (nsOfPfx.lookup pfx).bind moduleOfNamespace with
      | none => .error (.invalidSyntax v)
      | some md =>
        let step := md ++ ":" ++ tail
        if instances.any (fun i => i.1 ++ "[.=" ++ i.2 ++ "]" = step) then
          .ok (.vInstId ("/" ++ step))
        else .error (.noTargetInstance v)
  | _ => .error (.invalidSyntax v)

/-- Modelled from the spec: store of `string {length 1..20}` (§4.E: length
counted in code points; out-of-length is a store error). -/
def storeStringLen (lo hi : Nat) (v : String) : Except TErr StoredVal :=
  if lo ≤ v.data.length ∧ v.data.length ≤ hi then .ok (.vString v)
  else .error (.outOfLength v)

/-! Type engine: union -/

/-- Modelled from the spec: store into a union type (§4.E table row union:
whichever member store succeeds first, in declaration order; on no
match, a union-no-match error that summarizes the per-member failures in
order).  A member type is represented by its store operation. -/
def unionStore (members : List (String → Except TErr StoredVal))
    (v : String) : Except TErr StoredVal :=
  match members with
  | [] => .error (.unionNoMatch [])
  | m :: rest =>
    match m v with
    | .ok s => .ok s
    | .error e =>
      match unionStore rest v with
      | .ok s => .ok s
      | .error (.unionNoMatch es) => .error (.unionNoMatch (e :: es))
      | .error e2 => .error e2

/-- Modelled from the spec: the member stores of leaf `un1` of module
`types` (test_union): a leafref to `/int8` with require-instance true
(`int8Inst` is the value of the `/int8` instance, if present), a nested
union of an identityref and an instance-identifier, and `string
{length 1..20}`.  Leafref store per §4.E: store by the target type, then
the value must equal an existing target instance. -/
def un1Members (nsOfPfx : List (String × String)) (int8Inst : Option Int)
    (instances : List (String × String)) :
    List (String → Except TErr StoredVal) :=
  [fun v =>
      match storeInt8Range v with
      | .error e => .error e
      | .ok n =>
        if int8Inst = some n then .ok (.vInt8 n)
        else .error (.noTargetInstance v),
   fun v =>
      unionStore [fun w => storeIdentityref nsOfPfx w,
                  fun w => storeInstId nsOfPfx instances w] v,
   fun v => storeStringLen 1 20 v]

/-! Type engine and validator: leafref -/

/-- A stored leafref value: the stored value of the target type together
with the resolved-target pointer, modelled as the index of the referred
instance in the target leaf-list (§4.E: same as the storage of the target type
plus a resolved pointer). -/
structure LeafrefVal where
  value : Nat
  resolved : Option Nat
deriving DecidableEq, Repr

/-- Index of the first occurrence of `n` in a list of stored values. -/
def findIndexNat (n : Nat) : List Nat → Option Nat
| [] => none
| x :: xs => if x = n then some 0 else (findIndexNat n xs).map (· + 1)

/-- Modelled from the spec: validation of a leafref leaf with
`require-instance true` whose path names a `uint8` leaf-list (§8 scenario
d and §4.G check 13): the lexical value is stored by the target type, then
the first target instance holding the same value becomes the resolved
pointer; if no instance matches, validation fails with the
reference-not-found error. -/
def validateLeafref (targets : List Nat) (v : String) :
    Except TErr LeafrefVal :=
  match storeUint8 v with
  | .error e => .error e
  | .ok n =>
    match findIndexNat n targets with
    | some i => .ok ⟨n, some i⟩
    | none => .error (.noTargetInstance v)

/-! Data validator: when conditions (module a of test_validation.c) -/

/-- Data instance of `container cont {leaf a {when ../../c = val_c;}
leaf b;}` of module a in src/tests/utests/data/test_validation.c. -/
structure ContA where
  a : Option String
  b : Option String
deriving DecidableEq, Repr

/-- Data tree of module a of test_validation.c: the optional container
`cont` and the optional top-level leaf `c {when /cont/b = val_b;}`. -/
structure TreeA where
  cont : Option ContA
  c : Option String
deriving DecidableEq, Repr

/-- Modelled from the spec: evaluation of the XPath condition
`/cont/b = \x27val_b\x27` on a module-a data tree (§4.B). -/
def whenCondC (t : TreeA) : Bool :=
  match t.cont with
  | some cn => cn.b = some ("val_b")
  | none => false

/-- Modelled from the spec: evaluation of the XPath condition
`../../c = \x27val_c\x27` for node `/cont/a` (§4.B). -/
def whenCondA (t : TreeA) : Bool :=
  t.c = some ("val_c")

/-- Whether leaf `/cont/a` is present in the tree. -/
def aPresent (t : TreeA) : Bool :=
  match t.cont with
  | some cn => cn.a.isSome
  | none => false

/-- Validation errors of the module-a when checks. -/
inductive VErrA where
| whenNotSatisfied (cond : String) (path : String)
deriving DecidableEq, Repr

/-- The message rendered for a failed when condition, as asserted by
test_when: `When condition "<cond>" not satisfied.`. -/
def VErrA.message : VErrA → String
| .whenNotSatisfied cond _ => "When condition \"" ++ cond ++ "\" not satisfied."

/-- The error path carried by a when failure. -/
def VErrA.path : VErrA → String
| .whenNotSatisfied _ p => p

/-- Source text of the when condition of leaf `c`. -/
def whenCondCText : String := "/cont/b = \x27val_b\x27"

/-- Source text of the when condition of leaf `cont/a`. -/
def whenCondAText : String := "../../c = \x27val_c\x27"

/-- A validated module-a tree: the tree together with the `LYD_WHEN_TRUE`
flag of the two when-guarded nodes (§3: data-node flag `when-true`). -/
structure ValidatedA where
  tree : TreeA
  aWhenTrue : Bool
  cWhenTrue : Bool
deriving DecidableEq, Repr

/-- Modelled from the spec: the when check of the validator (§4.G check 11) on a
module-a data tree, with the outcome on explicitly present nodes fixed by
the unit test test_when of the repository
(src/tests/utests/data/test_validation.c lines 415-448): a node present in
the data whose when condition evaluates to false is reported as `LY_EVALID`
with the message `When condition "<cond>" not satisfied.` and the
path, and a present node whose when condition holds gets the
`LYD_WHEN_TRUE` flag.  (The removal path of the spec concerns nodes the
validator itself auto-inserted; module a declares no defaults, so no such
node exists here.) -/
def validateWhenA (t : TreeA) : Except VErrA ValidatedA :=
  if aPresent t ∧ ¬ whenCondA t then
    .error (.whenNotSatisfied whenCondAText ("/a:cont/a"))
  else if t.c.isSome ∧ ¬ whenCondC t then
    .error (.whenNotSatisfied whenCondCText ("/a:c"))
  else
    .ok ⟨t, aPresent t && whenCondA t, t.c.isSome && whenCondC t⟩

/-! Data validator: unique (module d of test_validation.c) -/

/-- One entry of `list lt {key "k"; unique "l1"; leaf k; leaf l1;}` of
module d in test_validation.c: the key value and the optional `l1` leaf. -/
structure EntryD where
  k : String
  l1 : Option String
deriving DecidableEq, Repr

/-- Two list entries conflict on the `unique "l1"` constraint when both
carry an `l1` instance and the values are equal (§4.G check 8: a tuple
containing nulls for missing leaves is disabled from conflict). -/
def uniqueConflict (x y : EntryD) : Bool :=
  match x.l1, y.l1 with
  | some a, some b => a = b
  | _, _ => false

/-- First conflicting pair of entries, scanning in tree order. -/
def findUniqueConflict : List EntryD → Option (EntryD × EntryD)
| [] => none
| e :: rest =>
  match rest.find? (fun f => uniqueConflict e f) with
  | some f => some (e, f)
  | none => findUniqueConflict rest

/-- A unique-constraint violation: the key values of the two conflicting
entries. -/
structure UniqueErr where
  k1 : String
  k2 : String
deriving DecidableEq, Repr

/-- The message rendered for a unique violation, as asserted by
test_unique: it references the key values of both conflicting entries. -/
def UniqueErr.message (e : UniqueErr) : String :=
  "Unique data leaf(s) \"l1\" not satisfied in \"/d:lt[k=\x27" ++ e.k1 ++
    "\x27]\" and \"/d:lt[k=\x27" ++ e.k2 ++ "\x27]\"."

/-- Modelled from the spec: the unique check of the validator (§4.G check 8) for
`list lt` of module d; the concrete outcomes match test_unique
(src/tests/utests/data/test_validation.c lines 545-632). -/
def validateUnique (entries : List EntryD) : Except UniqueErr Unit :=
  match findUniqueConflict entries with
  | some (x, y) => .error ⟨x.k, y.k⟩
  | none => .ok ()

/-! Data validator: default insertion and with-defaults printing -/

/-- A leaf schema of the C7 module: name and optional default value
(module a of test_parser_xml.c: `leaf foo {type string;}` and `leaf foo2
{type string; default "default-val";}`). -/
structure LeafSch where
  name : String
  dflt : Option String
deriving DecidableEq, Repr

/-- The two string leaves of module a of test_parser_xml.c. -/
def schemaFoo : List LeafSch :=
  [⟨"foo", none⟩, ⟨"foo2", some ("default-val")⟩]

/-- A term data node: schema name, stored string value, and the
`LYD_DEFAULT` flag (§3: data-node flag `default`). -/
structure TermNode where
  name : String
  value : String
  dflt : Bool
deriving DecidableEq, Repr

/-- Modelled from the spec: default insertion (§4.G check 3): for every
leaf with a default and no instance, a default-flagged instance carrying
the default value is inserted; leaves parsed from input are left as they
are. -/
def insertDefaults (sch : List LeafSch) (ns : List TermNode) : List TermNode :=
  ns ++ sch.filterMap (fun s =>
    match s.dflt with
    | some d =>
      if ns.any (fun n => n.name = s.name) then none
      else some ⟨s.name, d, true⟩
    | none => none)

/-- With-defaults printing modes (§4.F / §6 output formats). -/
inductive WDMode where
| wdExplicit
| wdTrim
| wdAll
deriving DecidableEq, Repr

/-- Whether a node carries its schema default value. -/
def hasDefaultValue (sch : List LeafSch) (n : TermNode) : Bool :=
  sch.any (fun s => s.name = n.name && s.dflt = some n.value)

/-- Modelled from the spec: node selection of the data printer
with-defaults modes (§4.F printer: "with-defaults mode (emit defaulted
nodes, optionally tagged)"; §8 scenario b: `all` includes the defaulted
node, `trim` omits it; test_defaults in
src/tests/utests/data/test_printer_xml.c shows `trim` removing every node
carrying its default value). -/
def wdSelect (sch : List LeafSch) (mode : WDMode) (ns : List TermNode) :
    List TermNode :=
  match mode with
  | .wdAll => ns
  | .wdTrim => ns.filter (fun n => ¬ hasDefaultValue sch n)
  | .wdExplicit => ns.filter (fun n => ¬ n.dflt)

/-- Prints one term node of module a of test_parser_xml.c as a shrunk XML
element. -/
def printTermXml (n : TermNode) : String :=
  "<" ++ n.name ++ " xmlns=\"urn:tests:a\">" ++ n.value ++ "</" ++ n.name ++ ">"

/-- Prints a sibling run of term nodes in shrink mode (no whitespace). -/
def printSiblingsXml (sch : List LeafSch) (mode : WDMode)
    (ns : List TermNode) : String :=
  String.join ((wdSelect sch mode ns).map printTermXml)

/-! XML lexer (modelled from the spec, §4.C) -/

namespace Xml

/-- Errors of the XML lexer and of schema matching during data parse. -/
inductive XErr where
| badSyntax
| tagMismatch
| unknownElement (name : String)
| wrongNamespace
| unexpectedContent
deriving DecidableEq, Repr

/-- Drops leading whitespace. -/
def skipWs : List Char → List Char
| [] => []
| c :: cs => if LibYang.isYangWs c then skipWs cs else c :: cs

/-- Characters allowed to continue an element or attribute name (the lexer
stops a name at whitespace and at the markup delimiters). -/
def isNameChar (c : Char) : Bool :=
  ¬ (LibYang.isYangWs c || c = '<' || c = '>' || c = '/' || c = '=' ||
     c = '"' || c = '&')

/-- Longest name at the head of the input, with the rest. -/
def takeName : List Char → List Char × List Char
| [] => ([], [])
| c :: cs =>
  if isNameChar c then
    let (n, r) := takeName cs
    (c :: n, r)
  else ([], c :: cs)

/-- Input up to (and excluding) the first occurrence of `stop`, with the
rest after it; `none` when `stop` never occurs. -/
def takeUntil (stop : Char) : List Char → Option (List Char × List Char)
| [] => none
| c :: cs =>
  if c = stop then some ([], cs)
  else
    match takeUntil stop cs with
    | some (a, r) => some (c :: a, r)
    | none => none

/-- Modelled from the spec: resolution of the five predefined XML entities
in text content (§4.C: "entity resolution for the five XML entities"). -/
def decodeEntities : List Char → List Char
| '&' :: 'a' :: 'm' :: 'p' :: ';' :: rest => '&' :: decodeEntities rest
| '&' :: 'l' :: 't' :: ';' :: rest => '<' :: decodeEntities rest
| '&' :: 'g' :: 't' :: ';' :: rest => '>' :: decodeEntities rest
| '&' :: 'q' :: 'u' :: 'o' :: 't' :: ';' :: rest => '"' :: decodeEntities rest
| '&' :: 'a' :: 'p' :: 'o' :: 's' :: ';' :: rest => '\x27' :: decodeEntities rest
| c :: rest => c :: decodeEntities rest
| [] => []

/-- One attribute list: pairs of attribute name and literal value, parsed
until the head of the input is `>` or `/`; `fuel` bounds the loop. -/
def parseAttrs : Nat → List Char → Except XErr (List (String × String) × List Char)
| 0, _ => .error .badSyntax
| fuel + 1, input =>
  match skipWs input with
  | [] => .error .badSyntax
  | '>' :: rest => .ok ([], '>' :: rest)
  | '/' :: rest => .ok ([], '/' :: rest)
  | cs =>
    let (nm, r1) := takeName cs
    if nm.isEmpty then .error .badSyntax
    else
      match r1 with
      | '=' :: '"' :: r2 =>
        match takeUntil '"' r2 with
        | none => .error .badSyntax
        | some (val, r3) =>
          match parseAttrs fuel r3 with
          | .ok (attrs, r4) =>
            .ok ((String.mk nm, String.mk (decodeEntities val)) :: attrs, r4)
          | .error e => .error e
      | _ => .error .badSyntax

/-- A parsed XML element: name, attributes, and flattened text content
(this data layer parses leaf elements and empty container elements, which
is all the embedded scenarios need). -/
structure RawElem where
  name : String
  attrs : List (String × String)
  text : String
deriving DecidableEq, Repr

/-- Modelled from the spec: the streaming XML pull parser of §4.C,
restricted to a single element `<name attrs>text</name>` or
`<name attrs/>`, with entity resolution in text and attribute values and
tag matching between the open and close tags. -/
def parseElem (input : String) : Except XErr RawElem :=
  match skipWs input.data with
  | '<' :: cs =>
    let (nm, r1) := takeName cs
    if nm.isEmpty then .error .badSyntax
    else
      match parseAttrs (r1.length + 1) r1 with
      | .error e => .error e
      | .ok (attrs, r2) =>
        match skipWs r2 with
        | '/' :: '>' :: rest =>
          if (skipWs rest).isEmpty then .ok ⟨String.mk nm, attrs, ""⟩
          else .error .badSyntax
        | '>' :: rest =>
          match takeUntil '<' rest with
          | none => .error .badSyntax
          | some (txt, r3) =>
            match r3 with
            | '/' :: r4 =>
              let (nm2, r5) := takeName r4
              if nm2 = nm then
                match skipWs r5 with
                | '>' :: r6 =>
                  if (skipWs r6).isEmpty then
                    .ok ⟨String.mk nm, attrs, String.mk (decodeEntities txt)⟩
                  else .error .badSyntax
                | _ => .error .badSyntax
              else .error .tagMismatch
            | _ => .error .badSyntax
        | _ => .error .badSyntax
  | _ => .error .badSyntax

end Xml

/-! XML data parser for the leaf scenario (§8 scenario a) -/

/-- Escapes the markup-significant characters when printing text content. -/
def xmlEscapeText (s : String) : String :=
  String.mk (s.data.foldr (fun c acc =>
    if c = '&' then '&' :: 'a' :: 'm' :: 'p' :: ';' :: acc
    else if c = '<' then '&' :: 'l' :: 't' :: ';' :: acc
    else if c = '>' then '&' :: 'g' :: 't' :: ';' :: acc
    else c :: acc) [])

/-- Modelled from the spec: parsing an XML instance document against the
schema `module a {namespace urn:tests:a; leaf foo {type string;}}` of §8
scenario a (§4.F: the namespace of the element must identify the module, the
element name the schema leaf; the leaf value is the text content of the element
and the string type stores it as-is). -/
def parseLeafFoo (input : String) : Except Xml.XErr TermNode :=
  match Xml.parseElem input with
  | .error e => .error e
  | .ok el =>
    if el.attrs.lookup ("xmlns") ≠ some ("urn:tests:a") then
      .error .wrongNamespace
    else if el.name = "foo" then .ok ⟨"foo", el.text, false⟩
    else .error (.unknownElement el.name)

/-- Modelled from the spec: XML printing of one module-a term node in
shrink mode (§4.F print side; §8 scenario a: printing back yields exactly
the input). -/
def printLeafFooShrink (n : TermNode) : String :=
  "<" ++ n.name ++ " xmlns=\"urn:tests:a\">" ++ xmlEscapeText n.value ++
    "</" ++ n.name ++ ">"

/-! XML data parser for empty containers (test_parser_xml.c
test_container) -/

/-- An inner data node produced for a container element: schema name, the
presence flag of its schema, and the `LYD_DEFAULT` flag. -/
structure InnerNode where
  name : String
  presence : Bool
  dflt : Bool
deriving DecidableEq, Repr

/-- The two containers of module a of test_parser_xml.c: `container c`
with no presence statement, and the presence container `cp`. -/
def containerSchemas : List (String × Bool) :=
  [("c", false), ("cp", true)]

/-- Modelled from the spec: parsing an empty XML element for a container
of module a of test_parser_xml.c.  The spec gives data nodes a `default`
flag (§3); a non-presence container carries no information of its own and
the parser creates it default-flagged, while a presence container is
meaningful and is created with the flag clear — the concrete outcomes are
fixed by test_container (src/tests/utests/data/test_parser_xml.c lines
245-269). -/
def parseContainerA (input : String) : Except Xml.XErr InnerNode :=
  match Xml.parseElem input with
  | .error e => .error e
  | .ok el =>
    if el.attrs.lookup ("xmlns") ≠ some ("urn:tests:a") then
      .error .wrongNamespace
    else if ¬ el.text.isEmpty then .error .unexpectedContent
    else
      match containerSchemas.lookup el.name with
      | some presence => .ok ⟨el.name, presence, ¬ presence⟩
      | none => .error (.unknownElement el.name)

/-! JSON data parser for list l1 (test_parser_json.c test_list) -/

namespace Json

/-- Tokens of the JSON lexer (§4.C: "a standard JSON tokenizer"). -/
inductive JTok where
| lbrace
| rbrace
| lbrack
| rbrack
| colon
| comma
| str (s : String)
| num (n : Int)
deriving DecidableEq, Repr

/-- Scalar JSON values carried by leaf members. -/
inductive JVal where
| jstr (s : String)
| jnum (n : Int)
deriving DecidableEq, Repr

/-- Errors of the JSON lexer and of the schema-directed data parse. -/
inductive JErr where
| badSyntax
| unknownMember (name : String)
| duplicateMember (name : String)
| missingKey (name : String)
| badMemberType (name : String)
| duplicateListEntry (name : String)
deriving DecidableEq, Repr

/-- Longest digit run at the head of the input. -/
def takeDigits : List Char → List Char × List Char
| [] => ([], [])
| c :: cs =>
  if c.isDigit then
    let (d, r) := takeDigits cs
    (c :: d, r)
  else ([], c :: cs)

/-- Natural-number value of a digit run. -/
def digitsToNat (ds : List Char) : Nat :=
  ds.foldl (fun acc c => acc * 10 + (c.toNat - 48)) 0

/-- Modelled from the spec: the JSON tokenizer of §4.C, restricted to the
token shapes the embedded scenario uses (objects, arrays, string literals
without escapes, and integer literals); `fuel` bounds the loop. -/
def tokenize : Nat → List Char → Except JErr (List JTok)
| 0, _ => .error .badSyntax
| fuel + 1, input =>
  match Xml.skipWs input with
  | [] => .ok []
  | '{' :: rest => (tokenize fuel rest).map (fun ts => .lbrace :: ts)
  | '}' :: rest => (tokenize fuel rest).map (fun ts => .rbrace :: ts)
  | '[' :: rest => (tokenize fuel rest).map (fun ts => .lbrack :: ts)
  | ']' :: rest => (tokenize fuel rest).map (fun ts => .rbrack :: ts)
  | ':' :: rest => (tokenize fuel rest).map (fun ts => .colon :: ts)
  | ',' :: rest => (tokenize fuel rest).map (fun ts => .comma :: ts)
  | '"' :: rest =>
    match Xml.takeUntil '"' rest with
    | none => .error .badSyntax
    | some (lit, r) =>
      if lit.contains '\\' then .error .badSyntax
      else (tokenize fuel r).map (fun ts => .str (String.mk lit) :: ts)
  | '-' :: rest =>
    let (ds, r) := takeDigits rest
    if ds.isEmpty then .error .badSyntax
    else (tokenize fuel r).map (fun ts => .num (-(digitsToNat ds : Int)) :: ts)
  | c :: rest =>
    if c.isDigit then
      let (ds, r) := takeDigits (c :: rest)
      (tokenize fuel r).map (fun ts => .num (digitsToNat ds : Int) :: ts)
    else .error .badSyntax

/-- Members of one JSON object in input order: the parser consumes
`"name" : scalar` pairs separated by commas up to the closing brace. -/
def parseMembers : Nat → List JTok →
    Except JErr (List (String × JVal) × List JTok)
| 0, _ => .error .badSyntax
| fuel + 1, ts =>
  match ts with
  | .rbrace :: rest => .ok ([], rest)
  | .str name :: .colon :: .str v :: rest =>
    match rest with
    | .comma :: rest2 =>
      (parseMembers fuel rest2).map (fun (ms, r) => ((name, .jstr v) :: ms, r))
    | .rbrace :: rest2 => .ok ([(name, .jstr v)], rest2)
    | _ => .error .badSyntax
  | .str name :: .colon :: .num n :: rest =>
    match rest with
    | .comma :: rest2 =>
      (parseMembers fuel rest2).map (fun (ms, r) => ((name, .jnum n) :: ms, r))
    | .rbrace :: rest2 => .ok ([(name, .jnum n)], rest2)
    | _ => .error .badSyntax
  | _ => .error .badSyntax

end Json

/-- One entry of `list l1 {key "a b c"; leaf a {type string;} leaf b {type
string;} leaf c {type int16;} leaf d {type string;}}` of module a of
test_parser_xml.c / test_parser_json.c: the three key values and the
optional non-key leaf `d`. -/
structure L1Entry where
  a : String
  b : String
  c : Int
  d : Option String
deriving DecidableEq, Repr

/-- The children of a list entry in stored order.  Modelled from the spec:
parser finalization assembles the data tree with siblings held in
schema-declaration order (§4.F finalization, §5 ordering guarantees), so
the key terms come in declared key order `a,b,c` followed by `d` when
present, regardless of the order the members appeared in the input. -/
def L1Entry.children (e : L1Entry) : List (String × Json.JVal) :=
  [("a", .jstr e.a), ("b", .jstr e.b), ("c", .jnum e.c)] ++
    (match e.d with
     | some dv => [("d", Json.JVal.jstr dv)]
     | none => [])

/-- Modelled from the spec: building one `l1` entry from the members of a
JSON object (§4.F JSON parsing; test_list of
src/tests/utests/data/test_parser_json.c): every member must name a child
of the list, no member may appear twice, every key must be present (missing
keys are reported in key order), key `c` must be an int16 number, and the
members may come in any order. -/
def buildL1Entry (ms : List (String × Json.JVal)) : Except Json.JErr L1Entry :=
  match ms.find? (fun m => ¬ ["a", "b", "c", "d"].contains m.1) with
  | some m => .error (.unknownMember m.1)
  | none =>
    match (ms.map Prod.fst).find? (fun n => 1 < (ms.map Prod.fst).count n) with
    | some n => .error (.duplicateMember n)
    | none =>
      match ms.lookup ("a") with
      | none => .error (.missingKey ("a"))
      | some va =>
        match ms.lookup ("b") with
        | none => .error (.missingKey ("b"))
        | some vb =>
          match ms.lookup ("c") with
          | none => .error (.missingKey ("c"))
          | some vc =>
            match va, vb, vc with
            | .jstr sa, .jstr sb, .jnum nc =>
              if -32768 ≤ nc ∧ nc ≤ 32767 then
                match ms.lookup ("d") with
                | some (.jstr sd) => .ok ⟨sa, sb, nc, some sd⟩
                | some _ => .error (.badMemberType ("d"))
                | none => .ok ⟨sa, sb, nc, none⟩
              else .error (.badMemberType ("c"))
            | _, _, _ => .error (.badMemberType ("c"))

/-- The array of entry objects: consumes `{members} , {members} , ... ]`. -/
def parseL1Array : Nat → List Json.JTok →
    Except Json.JErr (List L1Entry × List Json.JTok)
| 0, _ => .error .badSyntax
| fuel + 1, ts =>
  match ts with
  | .rbrack :: rest => .ok ([], rest)
  | .lbrace :: rest =>
    match Json.parseMembers (rest.length + 1) rest with
    | .error e => .error e
    | .ok (ms, r1) =>
      match buildL1Entry ms with
      | .error e => .error e
      | .ok e =>
        match r1 with
        | .comma :: r2 =>
          (parseL1Array fuel r2).map (fun (es, r) => (e :: es, r))
        | .rbrack :: r2 => .ok ([e], r2)
        | _ => .error .badSyntax
  | _ => .error .badSyntax

/-- Modelled from the spec: parsing a JSON instance document of the form
`{"a:l1": [ ... ]}` against module a (§4.F: top-level member names are
module-qualified; a list member carries an array of entry objects). -/
def parseL1Data (input : String) : Except Json.JErr (List L1Entry) :=
  match Json.tokenize (input.data.length + 1) input.data with
  | .error e => .error e
  | .ok ts =>
    match ts with
    | .lbrace :: .str name :: .colon :: .lbrack :: rest =>
      if name = "a:l1" then
        match parseL1Array (rest.length + 1) rest with
        | .error e => .error e
        | .ok (es, [.rbrace]) => .ok es
        | .ok _ => .error .badSyntax
      else .error (.unknownMember name)
    | _ => .error .badSyntax

/-- The ordered key tuple of an `l1` entry. -/
def L1Entry.keyTuple (e : L1Entry) : String × String × Int :=
  (e.a, e.b, e.c)

/-- First pair of entries sharing a key tuple, in tree order. -/
def findDupL1 : List L1Entry → Option (L1Entry × L1Entry)
| [] => none
| e :: rest =>
  match rest.find? (fun f => f.keyTuple = e.keyTuple) with
  | some f => some (e, f)
  | none => findDupL1 rest

/-- Modelled from the spec: the key-uniqueness check of the validator (§4.G
check 7) over the entries of `list l1`; a repeated ordered key tuple is a
`duplicate` error (test_dup in src/tests/utests/data/test_validation.c
reports `Duplicate instance of "<list>"`). -/
def validateL1Keys (entries : List L1Entry) : Except Json.JErr Unit :=
  match findDupL1 entries with
  | some _ => .error (.duplicateListEntry ("l1"))
  | none => .ok ()

/-! Theorems -/

/-- C9: every public entry point of the tree-art printer
(`tree_print_parsed_and_compiled_module`, `tree_print_submodule`,
`tree_print_compiled_node`) returns 0 (`LY_SUCCESS`) for all inputs and
writes nothing to the output handle: the function bodies are stubs. -/
theorem tree_printer_entry_points_are_stubs (out : LyOut) (m : LysModuleArg)
    (sub : LyspSubmoduleArg) (nd : LyscNodeArg) (options line_length : Nat) :
    (tree_print_parsed_and_compiled_module out m options line_length =
        (.LY_SUCCESS, out) ∧
      (tree_print_parsed_and_compiled_module out m options line_length).1.code = 0 ∧
      (tree_print_parsed_and_compiled_module out m options line_length).2.buf = out.buf) ∧
    (tree_print_submodule out m sub options line_length = (.LY_SUCCESS, out) ∧
      (tree_print_submodule out m sub options line_length).1.code = 0 ∧
      (tree_print_submodule out m sub options line_length).2.buf = out.buf) ∧
    (tree_print_compiled_node out nd options line_length = (.LY_SUCCESS, out) ∧
      (tree_print_compiled_node out nd options line_length).1.code = 0 ∧
      (tree_print_compiled_node out nd options line_length).2.buf = out.buf) :=
  ⟨⟨rfl, rfl, rfl⟩, ⟨rfl, rfl, rfl⟩, ⟨rfl, rfl, rfl⟩⟩

/-- C2: parsing `<foo xmlns="urn:tests:a">foo value</foo>` against
`module a {namespace urn:tests:a; leaf foo {type string;}}` yields a term
node whose schema is `foo` and whose stored string value is the 9-byte
sequence `foo value`, and printing that node back in shrink mode yields
exactly the input text. -/
theorem leaf_foo_parse_and_print_roundtrip :
    parseLeafFoo ("<foo xmlns=\"urn:tests:a\">foo value</foo>") =
      .ok ⟨"foo", "foo value", false⟩ ∧
    ("foo value").utf8ByteSize = 9 ∧
    printLeafFooShrink ⟨"foo", "foo value", false⟩ =
      "<foo xmlns=\"urn:tests:a\">foo value</foo>" :=
  ⟨rfl, rfl, rfl⟩

/-- C7: validating input that contains only `foo` against the module with
`leaf foo2 {type string; default "default-val";}` inserts a default-flagged
`foo2` term carrying `default-val`; printing with the `all` with-defaults
mode includes that node while `trim` omits it; and an explicitly supplied
`foo2` with the same value is left unflagged and causes no insertion. -/
theorem default_insertion_and_with_defaults_printing :
    insertDefaults schemaFoo [⟨"foo", "foo value", false⟩] =
      [⟨"foo", "foo value", false⟩, ⟨"foo2", "default-val", true⟩] ∧
    printSiblingsXml schemaFoo .wdAll
        (insertDefaults schemaFoo [⟨"foo", "foo value", false⟩]) =
      "<foo xmlns=\"urn:tests:a\">foo value</foo><foo2 xmlns=\"urn:tests:a\">default-val</foo2>" ∧
    printSiblingsXml schemaFoo .wdTrim
        (insertDefaults schemaFoo [⟨"foo", "foo value", false⟩]) =
      "<foo xmlns=\"urn:tests:a\">foo value</foo>" ∧
    insertDefaults schemaFoo [⟨"foo2", "default-val", false⟩] =
      [⟨"foo2", "default-val", false⟩] :=
  ⟨rfl, rfl, rfl, rfl⟩

/-- C10: parsing the empty XML element `<c xmlns="urn:tests:a"/>` for the
non-presence container `c` yields an inner node with the default flag set,
while `<cp xmlns="urn:tests:a"/>` for the presence container `cp` yields
an inner node with the default flag clear. -/
theorem empty_container_default_flag :
    parseContainerA ("<c xmlns=\"urn:tests:a\"/>") = .ok ⟨"c", false, true⟩ ∧
    parseContainerA ("<cp xmlns=\"urn:tests:a\"/>") = .ok ⟨"cp", true, false⟩ :=
  ⟨rfl, rfl⟩

/-- C1 counterexample: validating `<c xmlns="urn:tests:a">hey</c>` with no
matching `/cont/b` does NOT succeed with the node removed; the validator
returns the when-not-satisfied error, exactly as test_when asserts. -/
theorem when_false_on_present_node_is_not_removed :
    validateWhenA ⟨none, some ("hey")⟩ =
      .error (.whenNotSatisfied whenCondCText ("/a:c")) ∧
    ¬ ∃ v, validateWhenA ⟨none, some ("hey")⟩ = .ok v := by
  refine ⟨rfl, ?_⟩
  rintro ⟨v, h⟩
  rw [show validateWhenA ⟨none, some ("hey")⟩ =
      .error (.whenNotSatisfied whenCondCText ("/a:c")) from rfl] at h
  exact Except.noConfusion h

/-- C1 (amended): when the data validator evaluates the `when` expression
of an explicitly present node to false, it does not remove the node; it
fails with `LY_EVALID` carrying the message `When condition "<cond>" not
satisfied.` and the path of the node, while a present node whose when holds is
kept and gets the when-true flag. -/
theorem when_false_reports_evalid (t : TreeA)
    (hA : aPresent t = true → whenCondA t = true) :
    (t.c.isSome = true → whenCondC t = false →
      validateWhenA t = .error (.whenNotSatisfied whenCondCText ("/a:c")) ∧
      VErrA.message (.whenNotSatisfied whenCondCText ("/a:c")) =
        "When condition \"/cont/b = \x27val_b\x27\" not satisfied." ∧
      VErrA.path (.whenNotSatisfied whenCondCText ("/a:c")) = "/a:c") ∧
    ((t.c.isSome = true → whenCondC t = true) →
      ∃ v, validateWhenA t = .ok v ∧ v.tree = t ∧
        v.cWhenTrue = t.c.isSome ∧ v.aWhenTrue = aPresent t) := by
  have hfirst : ¬ (aPresent t = true ∧ ¬ whenCondA t = true) := by
    rintro ⟨h1, h2⟩
    exact h2 (hA h1)
  constructor
  · intro hc hw
    refine ⟨?_, rfl, rfl⟩
    have hsecond : t.c.isSome = true ∧ ¬ whenCondC t = true :=
      ⟨hc, by rw [hw]; exact Bool.false_ne_true⟩
    simp only [validateWhenA, if_neg hfirst, if_pos hsecond]
  · intro hc2
    have hsecond : ¬ (t.c.isSome = true ∧ ¬ whenCondC t = true) := by
      rintro ⟨h1, h2⟩
      exact h2 (hc2 h1)
    refine ⟨⟨t, aPresent t && whenCondA t, t.c.isSome && whenCondC t⟩, ?_, rfl, ?_, ?_⟩
    · simp only [validateWhenA, if_neg hfirst, if_neg hsecond]
    · cases h : t.c.isSome with
      | true => simp [h, hc2 h]
      | false => simp [h]
    · cases h : aPresent t with
      | true => simp [h, hA h]
      | false => simp [h]

/-- Witness for the amended C1 theorem: the passing input of test_when,
`<cont><b>val_b</b></cont><c>hey</c>`, validates successfully and the `c`
node carries the when-true flag. -/
theorem when_false_reports_evalid_witness :
    ∃ v, validateWhenA ⟨some ⟨none, some ("val_b")⟩, some ("hey")⟩ = .ok v ∧
      v.tree = ⟨some ⟨none, some ("val_b")⟩, some ("hey")⟩ ∧
      v.cWhenTrue = true ∧ v.aWhenTrue = false :=
  (when_false_reports_evalid ⟨some ⟨none, some ("val_b")⟩, some ("hey")⟩
    (by decide)).2 (by decide)

/-- A found index points at an occurrence of the sought value. -/
theorem findIndexNat_some (n : Nat) :
    ∀ (ts : List Nat) (i : Nat), findIndexNat n ts = some i →
      ∃ hi : i < ts.length, ts.get ⟨i, hi⟩ = n := by
  intro ts
  induction ts with
  | nil => intro i h; exact absurd h (by simp [findIndexNat])
  | cons x xs ih =>
    intro i h
    by_cases hx : x = n
    · simp [findIndexNat, hx] at h
      subst h
      exact ⟨by simp, hx⟩
    · simp [findIndexNat, hx] at h
      obtain ⟨j, hj, rfl⟩ := h
      obtain ⟨hlt, hget⟩ := ih j hj
      exact ⟨by simpa using Nat.succ_lt_succ hlt, hget⟩

/-- The search fails exactly when the value occurs nowhere. -/
theorem findIndexNat_none (n : Nat) :
    ∀ ts : List Nat, findIndexNat n ts = none ↔ n ∉ ts := by
  intro ts
  induction ts with
  | nil => simp [findIndexNat]
  | cons x xs ih =>
    by_cases hx : x = n
    · simp [findIndexNat, hx]
    · simp [findIndexNat, hx, ih, Ne.symm hx]

/-- C5: for a leafref with require-instance true, every successful
validation stores the value and sets the resolved pointer to a target
instance holding the same value (never null), and when the stored value
occurs in no target instance, validation fails with the
reference-not-found error. -/
theorem leafref_require_instance_integrity (targets : List Nat) (v : String) :
    (∀ st, validateLeafref targets v = .ok st →
      st.resolved ≠ none ∧
      ∃ i, ∃ hi : i < targets.length,
        st.resolved = some i ∧ targets.get ⟨i, hi⟩ = st.value) ∧
    (∀ n, storeUint8 v = .ok n →
      (n ∈ targets →
        ∃ st, validateLeafref targets v = .ok st ∧ st.value = n ∧
          st.resolved ≠ none) ∧
      (n ∉ targets →
        validateLeafref targets v = .error (.noTargetInstance v))) := by
  constructor
  · intro st h
    unfold validateLeafref at h
    split at h
    · exact Except.noConfusion h
    · rename_i n hs
      split at h
      · rename_i i hf
        cases h
        obtain ⟨hi, hget⟩ := findIndexNat_some n targets i hf
        exact ⟨by simp, i, hi, rfl, hget⟩
      · exact Except.noConfusion h
  · intro n hs
    constructor
    · intro hmem
      match hf : findIndexNat n targets with
      | some i =>
        refine ⟨⟨n, some i⟩, ?_, rfl, by simp⟩
        simp only [validateLeafref, hs, hf]
      | none => exact absurd hmem ((findIndexNat_none n targets).mp hf)
    · intro hnmem
      have hf : findIndexNat n targets = none :=
        (findIndexNat_none n targets).mpr hnmem
      simp only [validateLeafref, hs, hf]

/-- Witness for C5 at scenario d of the spec: with target leaf-list
instances `10` and `11`, value `11` validates with the resolved pointer
set (to the second instance) and value `42` fails with
reference-not-found. -/
theorem leafref_require_instance_integrity_witness :
    (∃ st, validateLeafref [10, 11] ("11") = .ok st ∧ st.value = 11 ∧
      st.resolved ≠ none) ∧
    validateLeafref [10, 11] ("42") = .error (.noTargetInstance ("42")) :=
  ⟨((leafref_require_instance_integrity [10, 11] ("11")).2 11 rfl).1
      (by decide),
   ((leafref_require_instance_integrity [10, 11] ("42")).2 42 rfl).2
      (by decide)⟩

/-- A conflicting pair reported by the scan really is a pair of entries of
the list, and it conflicts. -/
theorem findUniqueConflict_sound :
    ∀ (es : List EntryD) (x y : EntryD), findUniqueConflict es = some (x, y) →
      x ∈ es ∧ y ∈ es ∧ uniqueConflict x y = true := by
  intro es
  induction es with
  | nil => intro x y h; exact absurd h (by simp [findUniqueConflict])
  | cons e rest ih =>
    intro x y h
    unfold findUniqueConflict at h
    match hfind : rest.find? (fun f => uniqueConflict e f) with
    | some f =>
      rw [hfind] at h
      cases h
      refine ⟨List.mem_cons_self e rest, ?_, ?_⟩
      · exact List.mem_cons_of_mem e (List.mem_of_find?_eq_some hfind)
      · simpa using List.find?_some hfind
    | none =>
      rw [hfind] at h
      obtain ⟨hx, hy, hc⟩ := ih x y h
      exact ⟨List.mem_cons_of_mem e hx, List.mem_cons_of_mem e hy, hc⟩

/-- When the scan reports nothing, no ordered pair of entries conflicts. -/
theorem findUniqueConflict_complete :
    ∀ es : List EntryD, findUniqueConflict es = none →
      ∀ i j (hi : i < es.length) (hj : j < es.length), i < j →
        uniqueConflict (es.get ⟨i, hi⟩) (es.get ⟨j, hj⟩) = false := by
  intro es
  induction es with
  | nil => intro _ i j hi _ _; exact absurd hi (by simp)
  | cons e rest ih =>
    intro h i j hi hj hij
    unfold findUniqueConflict at h
    match hfind : rest.find? (fun f => uniqueConflict e f) with
    | some f => rw [hfind] at h; exact Option.noConfusion h
    | none =>
      rw [hfind] at h
      match i, j with
      | 0, j' + 1 =>
        have hmem : rest.get ⟨j', Nat.lt_of_succ_lt_succ hj⟩ ∈ rest :=
          List.get_mem rest _ _
        have := List.find?_eq_none.mp hfind _ hmem
        simpa using this
      | i' + 1, j' + 1 =>
        exact ih h i' j' (Nat.lt_of_succ_lt_succ hi)
          (Nat.lt_of_succ_lt_succ hj) (Nat.lt_of_succ_lt_succ hij)

/-- A conflict means both entries carry the same present `l1` value. -/
theorem uniqueConflict_some (x y : EntryD) (h : uniqueConflict x y = true) :
    ∃ w, x.l1 = some w ∧ y.l1 = some w := by
  rcases hx : x.l1 with _ | a <;> rcases hy : y.l1 with _ | b <;>
    simp [uniqueConflict, hx, hy] at h
  exact ⟨a, rfl, congrArg some h.symm⟩

/-- C4: whenever two entries of `list lt {unique "l1";}` carry the same
`l1` value, validation fails with a constraint-violated error whose
message references the key values of both conflicting entries; and every
reported conflict is between two entries that both carry `l1` (an entry
that omits `l1` never conflicts). -/
theorem unique_l1_constraint (entries : List EntryD) (i j : Nat) (v : String)
    (hij : i < j) (hj : j < entries.length)
    (hi : (entries.get ⟨i, Nat.lt_trans hij hj⟩).l1 = some v)
    (hjv : (entries.get ⟨j, hj⟩).l1 = some v) :
    (∃ e : UniqueErr, validateUnique entries = .error e ∧
      e.message = "Unique data leaf(s) \"l1\" not satisfied in \"/d:lt[k=\x27" ++
        e.k1 ++ "\x27]\" and \"/d:lt[k=\x27" ++ e.k2 ++ "\x27]\".") ∧
    (∀ (es : List EntryD) (e : UniqueErr), validateUnique es = .error e →
      ∃ x ∈ es, ∃ y ∈ es, x.k = e.k1 ∧ y.k = e.k2 ∧
        ∃ w, x.l1 = some w ∧ y.l1 = some w) := by
  constructor
  · match hfind : findUniqueConflict entries with
    | some (x, y) =>
      refine ⟨⟨x.k, y.k⟩, ?_, rfl⟩
      simp only [validateUnique, hfind]
    | none =>
      exfalso
      have hfalse := findUniqueConflict_complete entries hfind i j
        (Nat.lt_trans hij hj) hj hij
      rw [show uniqueConflict (entries.get ⟨i, Nat.lt_trans hij hj⟩)
            (entries.get ⟨j, hj⟩) = true by
          unfold uniqueConflict; rw [hi, hjv]; simp] at hfalse
      exact Bool.noConfusion hfalse
  · intro es e h
    unfold validateUnique at h
    match hfind : findUniqueConflict es with
    | some (x, y) =>
      rw [hfind] at h
      cases h
      obtain ⟨hx, hy, hc⟩ := findUniqueConflict_sound es x y hfind
      obtain ⟨w, hw1, hw2⟩ := uniqueConflict_some x y hc
      exact ⟨x, hx, y, hy, rfl, rfl, w, hw1, hw2⟩
    | none => rw [hfind] at h; exact Except.noConfusion h

/-- Witness for C4 at the data of test_unique: two entries with keys
`val1`, `val2` and the same `l1` value `same` produce the error whose
message names both keys, while an entry omitting `l1` conflicts with
nothing. -/
theorem unique_l1_constraint_witness :
    (∃ e : UniqueErr,
      validateUnique [⟨"val1", some ("same")⟩, ⟨"val2", some ("same")⟩] =
        .error e ∧
      e.message = "Unique data leaf(s) \"l1\" not satisfied in \"/d:lt[k=\x27" ++
        e.k1 ++ "\x27]\" and \"/d:lt[k=\x27" ++ e.k2 ++ "\x27]\".") ∧
    validateUnique [⟨"val1", some ("same")⟩, ⟨"val2", none⟩] = .ok () :=
  ⟨(unique_l1_constraint [⟨"val1", some ("same")⟩, ⟨"val2", some ("same")⟩]
      0 1 ("same") (by decide) (by decide) (by decide) (by decide)).1,
   rfl⟩

/-- Bridge between the Boolean `contains` used by the embedded code and
list membership. -/
theorem contains_mem_iff (l : List String) (b : String) :
    l.contains b = true ↔ b ∈ l :=
  List.elem_iff

/-- Two lists with the same members agree on `contains`. -/
theorem contains_congr (l1 l2 : List String)
    (h : ∀ b, b ∈ l1 ↔ b ∈ l2) (b : String) :
    l1.contains b = l2.contains b := by
  cases c1 : l1.contains b <;> cases c2 : l2.contains b
  · rfl
  · have hh := (contains_mem_iff l1 b).mpr
      ((h b).mpr ((contains_mem_iff l2 b).mp c2))
    rw [c1] at hh
    exact Bool.noConfusion hh
  · have hh := (contains_mem_iff l2 b).mpr
      ((h b).mp ((contains_mem_iff l1 b).mp c1))
    rw [c2] at hh
    exact Bool.noConfusion hh
  · rfl

/-- Characterization of the bits store scan: it succeeds exactly when
every token is a declared bit, no token repeats and no token was already
seen, and then the result keeps the declared bits present among `seen` or
the tokens, in declaration order. -/
theorem storeBitsGo_ok_iff (decl : List String) :
    ∀ (toks seen c : List String),
      storeBitsGo decl seen toks = .ok c ↔
        ((∀ t ∈ toks, decl.contains t = true) ∧ toks.Nodup ∧
         (∀ t ∈ toks, seen.contains t = false) ∧
         c = decl.filter (fun b => seen.contains b || toks.contains b)) := by
  intro toks
  induction toks with
  | nil =>
    intro seen c
    simp only [storeBitsGo, Except.ok.injEq]
    constructor
    · rintro rfl
      refine ⟨by simp, List.nodup_nil, by simp, ?_⟩
      refine List.filter_congr' ?_
      intro b _
      show seen.contains b = (seen.contains b || ([] : List String).contains b)
      cases seen.contains b <;> rfl
    · rintro ⟨-, -, -, rfl⟩
      refine List.filter_congr' ?_
      intro b _
      show seen.contains b = (seen.contains b || ([] : List String).contains b)
      cases seen.contains b <;> rfl
  | cons t rest ih =>
    intro seen c
    unfold storeBitsGo
    by_cases hd : decl.contains t = true
    · rw [if_pos hd]
      by_cases hs : seen.contains t = true
      · rw [if_pos hs]
        constructor
        · intro h; exact Except.noConfusion h
        · rintro ⟨-, -, hseen, -⟩
          have ht := hseen t (List.mem_cons_self t rest)
          rw [hs] at ht
          exact Bool.noConfusion ht
      · have hs' : seen.contains t = false := Bool.eq_false_iff.mpr hs
        rw [if_neg hs]
        rw [ih (t :: seen) c]
        constructor
        · rintro ⟨hdecl, hnodup, hseen, rfl⟩
          have htrest : t ∉ rest := by
            intro hmem
            have hcontr := hseen t hmem
            have hexp : (t == t || seen.contains t) = false := hcontr
            rw [show (t == t) = true by simp] at hexp
            exact Bool.noConfusion hexp
          refine ⟨?_, ?_, ?_, ?_⟩
          · intro u hu
            rcases List.mem_cons.mp hu with rfl | hu2
            · exact hd
            · exact hdecl u hu2
          · exact List.nodup_cons.mpr ⟨htrest, hnodup⟩
          · intro u hu
            rcases List.mem_cons.mp hu with rfl | hu2
            · exact hs'
            · have hexp : (u == t || seen.contains u) = false := hseen u hu2
              exact (Bool.or_eq_false_iff.mp hexp).2
          · refine List.filter_congr' ?_
            intro b _
            show ((b == t || seen.contains b) || rest.contains b) =
              (seen.contains b || (b == t || rest.contains b))
            cases b == t <;> cases seen.contains b <;> cases rest.contains b <;> rfl
        · rintro ⟨hdecl, hnodup, hseen, rfl⟩
          have htrest : t ∉ rest := (List.nodup_cons.mp hnodup).1
          refine ⟨?_, (List.nodup_cons.mp hnodup).2, ?_, ?_⟩
          · intro u hu
            exact hdecl u (List.mem_cons_of_mem t hu)
          · intro u hu
            show (u == t || seen.contains u) = false
            have h1 : seen.contains u = false :=
              hseen u (List.mem_cons_of_mem t hu)
            have h2 : (u == t) = false := by
              cases hb : u == t
              · rfl
              · exact absurd ((beq_iff_eq.mp hb) ▸ hu) htrest
            rw [h1, h2]
            rfl
          · refine List.filter_congr' ?_
            intro b _
            show (seen.contains b || (b == t || rest.contains b)) =
              ((b == t || seen.contains b) || rest.contains b)
            cases b == t <;> cases seen.contains b <;> cases rest.contains b <;> rfl
    · rw [if_neg hd]
      constructor
      · intro h; exact Except.noConfusion h
      · rintro ⟨hdecl, -, -, -⟩
        exact absurd (hdecl t (List.mem_cons_self t rest)) hd

/-- The bits store at the top level: success means the tokens are declared
and pairwise distinct, and the stored value is the declaration-order
filter of the named bits. -/
theorem storeBits_ok_iff (decl : List String) (v : String) (c : List String) :
    storeBits decl v = .ok c ↔
      ((∀ t ∈ splitWs v, decl.contains t = true) ∧ (splitWs v).Nodup ∧
       c = decl.filter (fun b => (splitWs v).contains b)) := by
  unfold storeBits
  rw [storeBitsGo_ok_iff decl (splitWs v) [] c]
  constructor
  · rintro ⟨h1, h2, -, rfl⟩
    refine ⟨h1, h2, ?_⟩
    refine List.filter_congr' ?_
    intro b _
    show (([] : List String).contains b || (splitWs v).contains b) =
      (splitWs v).contains b
    simp [List.contains]
  · rintro ⟨h1, h2, rfl⟩
    refine ⟨h1, h2, by simp, ?_⟩
    refine List.filter_congr' ?_
    intro b _
    show (splitWs v).contains b =
      (([] : List String).contains b || (splitWs v).contains b)
    simp [List.contains]

/-- C8: storing a bits value canonicalizes it to the named bits reordered
into type-declaration order, independent of input token order and
surrounding whitespace, and a value naming some bit more than once is
rejected with a store error. -/
theorem bits_store_canonical_order (decl : List String) (v w : String)
    (c : List String) (hperm : (splitWs v).Perm (splitWs w)) :
    (storeBits decl v = .ok c ↔ storeBits decl w = .ok c) ∧
    (storeBits decl v = .ok c →
      c.Sublist decl ∧ (∀ b, b ∈ c ↔ b ∈ splitWs v) ∧ (splitWs v).Nodup) ∧
    (¬ (splitWs v).Nodup → ∃ e, storeBits decl v = .error e) := by
  refine ⟨?_, ?_, ?_⟩
  · rw [storeBits_ok_iff, storeBits_ok_iff]
    constructor
    · rintro ⟨h1, h2, rfl⟩
      refine ⟨fun t ht => h1 t (hperm.mem_iff.mpr ht), hperm.nodup_iff.mp h2, ?_⟩
      exact List.filter_congr' (fun b _ =>
        contains_congr (splitWs v) (splitWs w) (fun x => hperm.mem_iff) b)
    · rintro ⟨h1, h2, rfl⟩
      refine ⟨fun t ht => h1 t (hperm.mem_iff.mp ht), hperm.nodup_iff.mpr h2, ?_⟩
      exact List.filter_congr' (fun b _ =>
        contains_congr (splitWs w) (splitWs v) (fun x => hperm.mem_iff.symm) b)
  · intro h
    obtain ⟨h1, h2, rfl⟩ := (storeBits_ok_iff decl v _).mp h
    refine ⟨List.filter_sublist decl, ?_, h2⟩
    intro b
    constructor
    · intro hb
      exact (contains_mem_iff _ _).mp (List.of_mem_filter hb)
    · intro hb
      exact List.mem_filter.mpr ⟨(contains_mem_iff _ _).mp (h1 b hb),
        (contains_mem_iff _ _).mpr hb⟩
  · intro hnd
    match h : storeBits decl v with
    | .ok c2 =>
      obtain ⟨-, h2, -⟩ := (storeBits_ok_iff decl v c2).mp h
      exact absurd h2 hnd
    | .error e => exact ⟨e, rfl⟩

/-- Witness for C8 at the data of test_bits: the input ` two zero ` stores
canonically as `zero two` independent of token order, and the input
`one zero one` naming `one` twice is rejected. -/
theorem bits_store_canonical_order_witness :
    (storeBits testBitsDecl (" two zero ") = .ok (["zero", "two"]) ↔
      storeBits testBitsDecl ("zero two") = .ok (["zero", "two"])) ∧
    storeBits testBitsDecl ("zero two") = .ok (["zero", "two"]) ∧
    bitsCanonical (["zero", "two"]) = "zero two" ∧
    (∃ e, storeBits testBitsDecl ("one zero one") = .error e) :=
  ⟨(bits_store_canonical_order testBitsDecl (" two zero ") ("zero two")
      (["zero", "two"]) (by decide)).1,
   rfl, rfl,
   (bits_store_canonical_order testBitsDecl ("one zero one")
      ("one zero one") [] (List.Perm.refl _)).2.2 (by decide)⟩

/-- If every member store fails, the union store collects exactly the
per-member failures, in declaration order. -/
theorem unionStore_all_fail (v : String) :
    ∀ ms : List (String → Except TErr StoredVal),
      (∀ k (hk : k < ms.length), ∃ e, ms.get ⟨k, hk⟩ v = .error e) →
      ∃ es, unionStore ms v = .error (.unionNoMatch es) ∧
        es.length = ms.length ∧
        ∀ k (hk : k < ms.length) (hk2 : k < es.length),
          ms.get ⟨k, hk⟩ v = .error (es.get ⟨k, hk2⟩) := by
  intro ms
  induction ms with
  | nil =>
    intro _
    exact ⟨[], rfl, rfl, fun k hk _ => absurd hk (by simp)⟩
  | cons m rest ih =>
    intro hfail
    obtain ⟨e0, he0⟩ := hfail 0 (by simp)
    obtain ⟨es, hes, hlen, hidx⟩ := ih (fun k hk => hfail (k + 1) (by simpa using Nat.succ_lt_succ hk))
    refine ⟨e0 :: es, ?_, by simpa using hlen, ?_⟩
    · unfold unionStore
      rw [show m v = .error e0 from he0, hes]
    · intro k hk hk2
      match k with
      | 0 => exact he0
      | k + 1 =>
        exact hidx k (Nat.lt_of_succ_lt_succ hk) (Nat.lt_of_succ_lt_succ hk2)

/-- C3: storing a lexical value into a union tries the member types in
declaration order and keeps the result of the first member whose store
succeeds; when no member accepts the value, the store fails with a
union-no-match error that lists the per-member failures in order. -/
theorem union_store_first_match
    (members : List (String → Except TErr StoredVal)) (v : String)
    (i : Nat) (hi : i < members.length) (s : StoredVal)
    (hsucc : members.get ⟨i, hi⟩ v = .ok s)
    (hfail : ∀ j (hj : j < i),
      ∃ e, members.get ⟨j, Nat.lt_trans hj hi⟩ v = .error e) :
    unionStore members v = .ok s ∧
    (∀ ms : List (String → Except TErr StoredVal),
      (∀ k (hk : k < ms.length), ∃ e, ms.get ⟨k, hk⟩ v = .error e) →
      ∃ es, unionStore ms v = .error (.unionNoMatch es) ∧
        es.length = ms.length ∧
        ∀ k (hk : k < ms.length) (hk2 : k < es.length),
          ms.get ⟨k, hk⟩ v = .error (es.get ⟨k, hk2⟩)) := by
  refine ⟨?_, fun ms h => unionStore_all_fail v ms h⟩
  induction members generalizing i with
  | nil => exact absurd hi (by simp)
  | cons m rest ih =>
    match i with
    | 0 =>
      unfold unionStore
      rw [show m v = .ok s from hsucc]
    | i + 1 =>
      obtain ⟨e0, he0⟩ := hfail 0 (Nat.succ_pos i)
      have hrest : unionStore rest v = .ok s := by
        refine ih i (Nat.lt_of_succ_lt_succ hi) hsucc ?_
        intro j hj
        exact hfail (j + 1) (Nat.succ_lt_succ hj)
      unfold unionStore
      rw [show m v = .error e0 from he0, hrest]

/-- Witness for C3 at the union type of leaf `un1` of test_union: with
`/int8` holding `12`, the value `2` is rejected by the leafref member and
the nested union member and is kept by the string member, and on the first
two members alone it produces a union-no-match error summarizing two
per-member failures. -/
theorem union_store_first_match_witness :
    unionStore (un1Members [("x", "urn:tests:defs")] (some 12) []) ("2") =
      .ok (.vString ("2")) ∧
    ∃ es, unionStore
        ((un1Members [("x", "urn:tests:defs")] (some 12) []).take 2) ("2") =
      .error (.unionNoMatch es) ∧ es.length = 2 := by
  have h := union_store_first_match
    (un1Members [("x", "urn:tests:defs")] (some 12) []) ("2") 2 (by decide)
    (.vString ("2")) rfl
    (fun j hj => match j, hj with
      | 0, _ => ⟨.outOfRange ("2"), rfl⟩
      | 1, _ => ⟨.unionNoMatch [.invalidSyntax ("2"), .invalidSyntax ("2")], rfl⟩)
  refine ⟨h.1, ?_⟩
  obtain ⟨es, hes, hlen, -⟩ := h.2
    ((un1Members [("x", "urn:tests:defs")] (some 12) []).take 2)
    (fun k hk => match k, hk with
      | 0, _ => ⟨.outOfRange ("2"), rfl⟩
      | 1, _ => ⟨.unionNoMatch [.invalidSyntax ("2"), .invalidSyntax ("2")], rfl⟩)
  exact ⟨es, hes, hlen⟩

/-- A successful member lookup means the name occurs among the member
names. -/
theorem lookup_mem_names :
    ∀ (ms : List (String × Json.JVal)) (k : String) (v : Json.JVal),
      ms.lookup k = some v → k ∈ ms.map Prod.fst := by
  intro ms
  induction ms with
  | nil => intro k v h; exact absurd h (by simp)
  | cons m rest ih =>
    intro k v h
    by_cases hk : k = m.1
    · simp [hk]
    · right
      refine ih k v ?_
      have hne : (k == m.1) = false := by
        cases hb : k == m.1
        · rfl
        · exact absurd (beq_iff_eq.mp hb) hk
      simpa [List.lookup, hne] using h

/-- A name among the member names has a successful lookup. -/
theorem mem_names_lookup :
    ∀ (ms : List (String × Json.JVal)) (k : String),
      k ∈ ms.map Prod.fst → ∃ v, ms.lookup k = some v := by
  intro ms
  induction ms with
  | nil => intro k h; exact absurd h (by simp)
  | cons m rest ih =>
    intro k h
    by_cases hk : k = m.1
    · exact ⟨m.2, by simp [List.lookup, hk]⟩
    · have hne : (k == m.1) = false := by
        cases hb : k == m.1
        · rfl
        · exact absurd (beq_iff_eq.mp hb) hk
      have hmem : k ∈ rest.map Prod.fst := by
        rcases (by simpa using h : k = m.1 ∨ k ∈ rest.map Prod.fst) with h1 | h2
        · exact absurd h1 hk
        · exact h2
      obtain ⟨v, hv⟩ := ih k hmem
      exact ⟨v, by simp [List.lookup, hne, hv]⟩

/-- C6: parsing `{"a:l1":[{"a":"one","b":"one","c":1}]}` produces exactly
one list entry whose children are the three key terms in schema-declared
order `a,b,c` with no `d` child; any object whose members build an entry
stores the children in schema order with the member names preserved as a
set; and two entries with the same ordered key tuple make the key
uniqueness check fail with a duplicate error. -/
theorem json_list_key_order (ms : List (String × Json.JVal)) (e : L1Entry)
    (hbuild : buildL1Entry ms = .ok e) :
    parseL1Data ("\x7b\"a:l1\":[\x7b\"a\":\"one\",\"b\":\"one\",\"c\":1\x7d]\x7d") =
      .ok [⟨"one", "one", 1, none⟩] ∧
    L1Entry.children ⟨"one", "one", 1, none⟩ =
      [("a", .jstr ("one")), ("b", .jstr ("one")), ("c", .jnum 1)] ∧
    (e.children.map Prod.fst =
      ["a", "b", "c"] ++ (if e.d.isSome then ["d"] else []) ∧
     ∀ n, n ∈ ms.map Prod.fst ↔ n ∈ e.children.map Prod.fst) ∧
    (∀ e1 e2 : L1Entry, e1.keyTuple = e2.keyTuple →
      validateL1Keys [e1, e2] = .error (.duplicateListEntry ("l1"))) := by
  refine ⟨rfl, rfl, ?_, ?_⟩
  · unfold buildL1Entry at hbuild
    split at hbuild
    · exact Except.noConfusion hbuild
    · split at hbuild
      · exact Except.noConfusion hbuild
      · rename_i hunk x1 hdup
        split at hbuild
        · exact Except.noConfusion hbuild
        · rename_i va ha
          split at hbuild
          · exact Except.noConfusion hbuild
          · rename_i vb hb
            split at hbuild
            · exact Except.noConfusion hbuild
            · rename_i vc hc
              split at hbuild
              case _ sa sb nc =>
                split at hbuild
                · split at hbuild
                  case _ sd hd =>
                    cases hbuild
                    refine ⟨rfl, ?_⟩
                    intro n
                    constructor
                    · intro hn
                      obtain ⟨⟨n1, v1⟩, hm, rfl⟩ := List.mem_map.mp hn
                      have hok := List.find?_eq_none.mp hunk ⟨n1, v1⟩ hm
                      have hin : n1 ∈ ["a", "b", "c", "d"] := by
                        by_cases hmem : n1 ∈ (["a", "b", "c", "d"] : List String)
                        · exact hmem
                        · exfalso
                          apply hok
                          simp only [decide_eq_true_eq]
                          intro hcontra
                          exact hmem ((contains_mem_iff _ _).mp hcontra)
                      simp only [L1Entry.children]
                      rcases (by simpa using hin :
                          n1 = "a" ∨ n1 = "b" ∨ n1 = "c" ∨ n1 = "d") with
                        rfl | rfl | rfl | rfl <;> simp
                    · intro hn
                      have hn4 : n = "a" ∨ n = "b" ∨ n = "c" ∨ n = "d" := by
                        simpa [L1Entry.children] using hn
                      rcases hn4 with rfl | rfl | rfl | rfl
                      · exact lookup_mem_names ms _ _ ha
                      · exact lookup_mem_names ms _ _ hb
                      · exact lookup_mem_names ms _ _ hc
                      · exact lookup_mem_names ms _ _ hd
                  case _ =>
                    exact Except.noConfusion hbuild
                  case _ hd =>
                    cases hbuild
                    refine ⟨rfl, ?_⟩
                    intro n
                    constructor
                    · intro hn
                      obtain ⟨⟨n1, v1⟩, hm, rfl⟩ := List.mem_map.mp hn
                      have hok := List.find?_eq_none.mp hunk ⟨n1, v1⟩ hm
                      have hin : n1 ∈ ["a", "b", "c", "d"] := by
                        by_cases hmem : n1 ∈ (["a", "b", "c", "d"] : List String)
                        · exact hmem
                        · exfalso
                          apply hok
                          simp only [decide_eq_true_eq]
                          intro hcontra
                          exact hmem ((contains_mem_iff _ _).mp hcontra)
                      have hnd : n1 ≠ "d" := by
                        rintro rfl
                        obtain ⟨v2, hv2⟩ := mem_names_lookup ms ("d")
                          (List.mem_map.mpr ⟨⟨"d", v1⟩, hm, rfl⟩)
                        rw [hd] at hv2
                        exact Option.noConfusion hv2
                      simp only [L1Entry.children]
                      rcases (by simpa using hin :
                          n1 = "a" ∨ n1 = "b" ∨ n1 = "c" ∨ n1 = "d") with
                        rfl | rfl | rfl | rfl
                      · simp
                      · simp
                      · simp
                      · exact absurd rfl hnd
                    · intro hn
                      have hn3 : n = "a" ∨ n = "b" ∨ n = "c" := by
                        simpa [L1Entry.children] using hn
                      rcases hn3 with rfl | rfl | rfl
                      · exact lookup_mem_names ms _ _ ha
                      · exact lookup_mem_names ms _ _ hb
                      · exact lookup_mem_names ms _ _ hc
                · exact Except.noConfusion hbuild
              all_goals exact Except.noConfusion hbuild
  · intro e1 e2 hkey
    have hfind : List.find? (fun f => f.keyTuple = e1.keyTuple) [e2] = some e2 := by
      simp [List.find?, hkey.symm]
    simp only [validateL1Keys, findDupL1, hfind]

/-- Witness for C6 at the reordered input of test_list: members given in
the order `d,a,c,b` build the entry whose children are stored in schema
order `a,b,c,d`. -/
theorem json_list_key_order_witness :
    parseL1Data ("\x7b\"a:l1\":[\x7b\"a\":\"one\",\"b\":\"one\",\"c\":1\x7d]\x7d") =
      .ok [⟨"one", "one", 1, none⟩] ∧
    (L1Entry.children ⟨"a", "b", 1, some ("d")⟩).map Prod.fst =
      ["a", "b", "c"] ++ (if (some ("d")).isSome then ["d"] else []) ∧
    validateL1Keys [⟨"one", "one", 1, none⟩, ⟨"one", "one", 1, some ("x")⟩] =
      .error (.duplicateListEntry ("l1")) := by
  have h := json_list_key_order
    [("d", .jstr ("d")), ("a", .jstr ("a")), ("c", .jnum 1), ("b", .jstr ("b"))]
    ⟨"a", "b", 1, some ("d")⟩ rfl
  exact ⟨h.1, h.2.2.1.1, h.2.2.2 ⟨"one", "one", 1, none⟩
    ⟨"one", "one", 1, some ("x")⟩ rfl⟩

end LibYang
